import Mathlib

/-!
Shallow embedding of `src/mgenomicsremotemail/dispatch/dispatch.py`
(class `RunDispatcher`): run-folder resolution (`get_input_folder`),
run-id collection (`__collect_ids`), fastq detection (`check_for_fastq`),
the dispatch loop (`dispatch`) and retention cleanup
(`_get_old_files` / `cleanup`).

Filesystem trees are modelled by `FSEntry`; the order of a directory's
`children` list models the OS listing order seen by `Path.iterdir`.
Paths are lists of entry names relative to a given root entry.
Python exceptions are modelled by the `PyError` sum, results by `Except`.
-/

/-- A filesystem entry: a regular file, or a directory with an ordered
list of children (the order models `Path.iterdir` listing order). -/
inductive FSEntry where
  | file (name : String)
  | dir (name : String) (children : List FSEntry)

/-- Last path component of an entry (Python `Path.name`). -/
def FSEntry.name : FSEntry → String
  | .file n => n
  | .dir n _ => n

/-- Model of Python `a.startswith(b)` on explicit character lists. -/
def chListStarts : List Char → List Char → Bool
  | _, [] => true
  | [], _ :: _ => false
  | a :: as, b :: bs => a == b && chListStarts as bs

/-- Model of Python `needle in hay` (substring containment) on character
lists. -/
def chListHasSub (needle : List Char) : List Char → Bool
  | [] => needle.isEmpty
  | a :: as => chListStarts (a :: as) needle || chListHasSub needle as

/-- Model of Python `s.startswith(p)`. -/
def strStarts (s p : String) : Bool := chListStarts s.data p.data

/-- Model of Python `needle in hay` for strings. -/
def strHasSub (hay needle : String) : Bool := chListHasSub needle.data hay.data

/-- The child of a directory entry carrying the given name, if any
(Python `(p / name)` combined with an existence check). -/
def FSEntry.childNamed : FSEntry → String → Option FSEntry
  | .file _, _ => none
  | .dir _ cs, n => cs.find? (fun c => c.name == n)

/-- Resolve a relative path below an entry. -/
def fsLookup : FSEntry → List String → Option FSEntry
  | e, [] => some e
  | e, n :: ns =>
    match e.childNamed n with
    | some c => fsLookup c ns
    | none => none

/-- Model of Python `Path.exists()` for a path relative to `e`. -/
def fsExists (e : FSEntry) (p : List String) : Bool := (fsLookup e p).isSome

/-- Python exceptions raised by the modelled code. -/
inductive PyError where
  | valueError (msg : String)
  | notADirectoryError (path : List String)
  | fileNotFoundError (path : List String)
deriving Repr, DecidableEq

/-- The message of the ValueError raised by `get_input_folder`
(`f"No folder containing fastq files found in {str(run_folder)}"`; the
run folder's string representation is modelled by its name). -/
def noFastqMsg (runFolderName : String) : String :=
  "No folder containing fastq files found in " ++ runFolderName

/-- Executable lexicographic comparison on character lists (Python `<`
on strings compares code points lexicographically). -/
def chListLt : List Char → List Char → Bool
  | _, [] => false
  | [], _ :: _ => true
  | a :: as, b :: bs => decide (a < b) || (a == b && chListLt as bs)

/-- Executable model of Python `s < t` on strings. -/
def strLtB (s t : String) : Bool := chListLt s.data t.data

/-- Stable descending insert by entry name: the auxiliary step of
`sortAligns`. -/
def insertDesc (x : FSEntry) : List FSEntry → List FSEntry
  | [] => [x]
  | y :: ys => if strLtB x.name y.name then y :: insertDesc x ys else x :: y :: ys

/-- Python `sorted(alignments, reverse=True)`: paths under a common
parent compare by their final name component, so this is the stable
descending sort by name (stable insertion sort, extensionally equal to
any stable sort such as CPython's timsort). -/
def sortAligns : List FSEntry → List FSEntry
  | [] => []
  | a :: l => insertDesc a (sortAligns l)

/-- The candidate folder scanned for alignment entries, with its path
relative to `run_folder`: lines 353-356 of dispatch.py
(`sub = run_folder; if (run_folder / run_id).exists(): sub = run_folder / run_id`). -/
def subEntry (run_folder : FSEntry) (run_id : String) : List String × FSEntry :=
  match run_folder.childNamed run_id with
  | some c => ([run_id], c)
  | none => ([], run_folder)

/-- Lines 361-365 of dispatch.py: sort the alignment entries in
descending order, then form `first_entry_of(alignments[0]) / "Fastq"`;
an empty `alignments[0]` leaves `path_2_files` as `None`, which line 375
turns into the same ValueError as the legacy branch. -/
def alignBranch (sp : List String) (rfName : String)
    (alignments : List FSEntry) : Except PyError (List String) :=
  match sortAligns alignments with
  | [] => .error (.valueError (noFastqMsg rfName))
  | a0 :: _ =>
    match a0 with
    | .file _ => .error (.notADirectoryError (sp ++ [a0.name]))
    | .dir _ acs =>
      match acs with
      | [] => .error (.valueError (noFastqMsg rfName))
      | ss :: _ => .ok (sp ++ [a0.name, ss.name, "Fastq"])

/-- Lines 366-373 of dispatch.py: the legacy fallbacks, probed relative
to `run_folder` itself. -/
def legacyBranch (run_folder : FSEntry) : Except PyError (List String) :=
  if fsExists run_folder ["Unaligned"] then .ok ["Unaligned"]
  else if fsExists run_folder ["Data", "Intensities", "BaseCalls"] then
    .ok ["Data", "Intensities", "BaseCalls"]
  else .error (.valueError (noFastqMsg run_folder.name))

/-- Resolution from the chosen candidate entry (with its relative path
`sp`): listing a non-directory raises `NotADirectoryError`, as
`Path.iterdir` does. -/
def resolveFrom (run_folder : FSEntry) (sp : List String) :
    FSEntry → Except PyError (List String)
  | .file _ => .error (.notADirectoryError sp)
  | .dir _ cs =>
    let alignments := cs.filter (fun s => strStarts s.name "Alignment")
    if alignments.length > 0 then alignBranch sp run_folder.name alignments
    else legacyBranch run_folder

/-- Embedding of `RunDispatcher.get_input_folder` (dispatch.py lines
353-376). The returned path is relative to `run_folder`. -/
def get_input_folder (run_folder : FSEntry) (run_id : String) :
    Except PyError (List String) :=
  resolveFrom run_folder (subEntry run_folder run_id).1 (subEntry run_folder run_id).2

/-- Embedding of `RunDispatcher.check_for_fastq` (dispatch.py lines
309-327): true iff some entry name contains `".fastq"`. -/
def check_for_fastq (path_2_files : FSEntry) : Except PyError Bool :=
  match path_2_files with
  | .file n => .error (.notADirectoryError [n])
  | .dir _ cs => .ok (cs.any (fun c => strHasSub c.name ".fastq"))

/-- Ordered association list modelling a Python `dict`: insertion order
is kept, and inserting an existing key overwrites its value in place
(keys of a Python dict are unique, so overwriting the first occurrence
is exact). -/
def dictInsert {α : Type} : List (String × α) → String → α → List (String × α)
  | [], k, v => [(k, v)]
  | p :: rest, k, v =>
    if p.1 == k then (k, v) :: rest else p :: dictInsert rest k v

/-- Python `d[k]` / `k in d` combined: the value at key `k`, if present. -/
def dictLookup {α : Type} (d : List (String × α)) (k : String) : Option α :=
  (d.find? (fun p => p.1 == k)).map (fun p => p.2)

/-- Model of Python `name[0].isdigit()`. Python raises IndexError on an
empty name, but directory entry names are never empty, so the empty case
is arbitrary (false). -/
def firstIsDigit (s : String) : Bool :=
  match s.data with
  | [] => false
  | c :: _ => c.isDigit

/-- The inner loop of `__collect_ids` over the children of a 4-character
entry (dispatch.py lines 81-83): nested entries whose name starts with a
digit and is longer than 4 characters are inserted. -/
def collectSub (acc : List (String × FSEntry)) :
    List FSEntry → List (String × FSEntry)
  | [] => acc
  | sub :: rest =>
    if firstIsDigit sub.name && decide (4 < sub.name.length) then
      collectSub (dictInsert acc sub.name sub) rest
    else collectSub acc rest

/-- The body of `__collect_ids` over the items of one scanned root
(dispatch.py lines 76-85). Iterating the children of a 4-character
regular file raises `NotADirectoryError`, as `Path.iterdir` does. -/
def collectItems (acc : List (String × FSEntry)) :
    List FSEntry → Except PyError (List (String × FSEntry))
  | [] => .ok acc
  | item :: rest =>
    if firstIsDigit item.name then
      if decide (4 < item.name.length) then
        collectItems (dictInsert acc item.name item) rest
      else if item.name.length == 4 then
        match item with
        | .file n => .error (.notADirectoryError [n])
        | .dir _ subs => collectItems (collectSub acc subs) rest
      else collectItems acc rest
    else collectItems acc rest

/-- One scanned root of `__collect_ids`: iterating a non-directory root
raises `NotADirectoryError`. -/
def collectRoot (acc : List (String × FSEntry)) (root : FSEntry) :
    Except PyError (List (String × FSEntry)) :=
  match root with
  | .file n => .error (.notADirectoryError [n])
  | .dir _ cs => collectItems acc cs

/-- Embedding of `RunDispatcher.__collect_ids` (dispatch.py lines 67-86)
over the list of scanned root directories (`self.all_paths`). -/
def collect_ids (roots : List FSEntry) :
    Except PyError (List (String × FSEntry)) :=
  roots.foldlM (fun acc r => collectRoot acc r) []

/-- The default recipients appended by `dispatch` when
`to_default_recipients` is set (dispatch.py lines 60-64, 427-428). -/
def default_recipients : List String :=
  ["marco.mernberger@staff.uni-marburg.de",
   "andrea.nist@imt.uni-marburg.de",
   "katharina.humpert@uni-marburg.de"]

/-- Observable side effects of one dispatch iteration. -/
inductive Effect where
  | createArchive (run_id : String)
  | sendEmail (run_id : String)
deriving Repr, DecidableEq

/-- The value of `res` in `dispatch`: the initial sentinel
`(-1, b"None")`, or the SMTP QUIT result of the last email sent
(abstracted by the run id it was sent for). -/
inductive SMTPRes where
  | sentinel
  | quitRes (run_id : String)
deriving Repr, DecidableEq

/-- A run folder as stored in `self.run_ids`: its path string and, when
the path still exists at dispatch time, its directory tree. -/
structure RunFolder where
  pathStr : String
  entry : Option FSEntry

/-- Render a path relative to a run folder for error messages. -/
def pathStrOf (rf : RunFolder) (p : List String) : String :=
  rf.pathStr ++ "/" ++ String.intercalate "/" p

/-- One iteration of the loop in `RunDispatcher.dispatch` (dispatch.py
lines 430-457) for a single run id: checks membership in `run_ids` and
folder existence, resolves the input folder, lists it (which raises if
it does not exist), checks for fastq files, creates the archive unless
it already exists in the public folder, and sends the email. Returns the
effects of this iteration and the updated set of public archives. -/
def dispatchOne (mapping : List (String × RunFolder)) (ag : String)
    (pub : List String) (run_id : String) :
    Except PyError (List Effect × List String) :=
  match dictLookup mapping run_id with
  | none => .error (.valueError ("Run " ++ run_id ++ " does not exist."))
  | some rf =>
    match rf.entry with
    | none => .error (.valueError ("Folder " ++ rf.pathStr ++ " does not exist."))
    | some fse =>
      match get_input_folder fse run_id with
      | .error e => .error e
      | .ok p =>
        match fsLookup fse p with
        | none => .error (.fileNotFoundError p)
        | some pe =>
          match check_for_fastq pe with
          | .error e => .error e
          | .ok hasFastq =>
            if !hasFastq then
              .error (.valueError ("Folder " ++ pathStrOf rf p ++ " is empty for " ++ run_id))
            else
              let filename := run_id ++ "_AG_" ++ ag ++ ".tar.gz"
              if pub.contains filename then
                .ok ([Effect.sendEmail run_id], pub)
              else
                .ok ([Effect.createArchive run_id, Effect.sendEmail run_id],
                     pub ++ [filename])

/-- The loop of `RunDispatcher.dispatch` over the selected run ids,
accumulating effects; an exception aborts the loop. -/
def dispatchGo (mapping : List (String × RunFolder)) (ag : String) :
    List String → List String → List Effect → SMTPRes →
    List Effect × Except PyError SMTPRes
  | [], _pub, trace, res => (trace, .ok res)
  | run_id :: rest, pub, trace, _res =>
    match dispatchOne mapping ag pub run_id with
    | .error e => (trace, .error e)
    | .ok (effs, pub2) =>
      dispatchGo mapping ag rest pub2 (trace ++ effs) (.quitRes run_id)

/-- Embedding of `RunDispatcher.dispatch` (dispatch.py lines 396-458).
Returns the final recipients list (Python mutates it in place via
`recipients.extend`), the emitted effects, and the result: the sentinel
`(-1, b"None")` when no email was sent, or the last SMTP result. -/
def dispatch (mapping : List (String × RunFolder)) (run_list : List String)
    (ag : String) (recipients : List String) (toDefault : Bool)
    (pub : List String) :
    List String × List Effect × Except PyError SMTPRes :=
  let recipients2 := if toDefault then recipients ++ default_recipients else recipients
  let r := dispatchGo mapping ag run_list pub [] .sentinel
  (recipients2, r.1, r.2)

/-- The retention window `RunDispatcher.MAXDAYS`. -/
def MAXDAYS : Int := 14

/-- Whole days between two timestamps in seconds (`timedelta.days` is a
floor division of the elapsed time). -/
def deltaDays (current mtime : Int) : Int := (current - mtime).fdiv 86400

/-- Embedding of `RunDispatcher._get_old_files` (dispatch.py lines
479-495): the public files whose age in whole days is at least
`MAXDAYS`. A file is a name paired with its mtime in seconds. -/
def get_old_files (current : Int) (publicFiles : List (String × Int)) :
    List (String × Int) :=
  publicFiles.filter (fun f => decide (MAXDAYS ≤ deltaDays current f.2))

/-- Embedding of `RunDispatcher.cleanup` (dispatch.py lines 497-503):
the public files remaining after every file in `_get_old_files` is
unlinked. -/
def cleanup (current : Int) (publicFiles : List (String × Int)) :
    List (String × Int) :=
  publicFiles.filter (fun f => !((get_old_files current publicFiles).contains f))

/-- Modelled from the spec (section 4.1 step 1, claim C4's wording): the
nesting rule with the probe reading "exists **as a directory**" instead
of the code's bare `.exists()`. Used only to compare the claim's wording
against the code's behaviour. -/
def subEntrySpec (run_folder : FSEntry) (run_id : String) : List String × FSEntry :=
  match run_folder.childNamed run_id with
  | some (.dir n cs) => ([run_id], .dir n cs)
  | _ => ([], run_folder)

/-- The resolver as claim C4 words it: identical to `get_input_folder`
except that the nested candidate is entered only when it is a directory. -/
def get_input_folder_specNesting (run_folder : FSEntry) (run_id : String) :
    Except PyError (List String) :=
  resolveFrom run_folder (subEntrySpec run_folder run_id).1 (subEntrySpec run_folder run_id).2

/-- Ghost function for reasoning about `__collect_ids`: the (run id,
entry) pairs one item of a scanned root contributes, in insertion order.
A 4-character digit-led regular file contributes nothing here because
`collectItems` raises on it. -/
def itemPairs (c : FSEntry) : List (String × FSEntry) :=
  if firstIsDigit c.name then
    if decide (4 < c.name.length) then [(c.name, c)]
    else if c.name.length == 4 then
      match c with
      | .file _ => []
      | .dir _ subs =>
        (subs.filter (fun s => firstIsDigit s.name && decide (4 < s.name.length))).map
          (fun s => (s.name, s))
    else []
  else []

/-- Ghost function: all pairs the items of one scanned root contribute,
in insertion order. -/
def collectedPairs : List FSEntry → List (String × FSEntry)
  | [] => []
  | c :: rest => itemPairs c ++ collectedPairs rest

/-- Ghost function: the run ids collected from one scanned root, in
insertion order. -/
def collectedNames (cs : List FSEntry) : List String :=
  (collectedPairs cs).map (fun p => p.1)

/-- Folding `dictInsert` over a list of pairs. -/
def insertSeq (acc : List (String × FSEntry)) :
    List (String × FSEntry) → List (String × FSEntry)
  | [] => acc
  | p :: ps => insertSeq (dictInsert acc p.1 p.2) ps

theorem chListLt_iff_lex (a b : List Char) :
    chListLt a b = true ↔ List.Lex (· < ·) a b := by
  induction a generalizing b with
  | nil =>
    cases b with
    | nil => simp [chListLt]
    | cons y ys => simpa [chListLt] using List.Lex.nil
  | cons x xs ih =>
    cases b with
    | nil => simp [chListLt]
    | cons y ys =>
      simp only [chListLt, Bool.or_eq_true, Bool.and_eq_true, decide_eq_true_eq, beq_iff_eq, ih]
      constructor
      · rintro (h | ⟨rfl, h⟩)
        · exact List.Lex.rel h
        · exact List.Lex.cons h
      · intro h
        cases h with
        | rel h => exact Or.inl h
        | cons h => exact Or.inr ⟨rfl, h⟩

theorem strLtB_iff (s t : String) : strLtB s t = true ↔ s < t := by
  rw [String.lt_iff_toList_lt]
  exact chListLt_iff_lex s.data t.data

theorem strLtB_eq_false_iff (s t : String) : strLtB s t = false ↔ ¬ s < t := by
  rw [← strLtB_iff]
  simp

theorem insertDesc_perm (x : FSEntry) (l : List FSEntry) :
    List.Perm (insertDesc x l) (x :: l) := by
  induction l with
  | nil => rfl
  | cons y ys ih =>
    by_cases h : strLtB x.name y.name
    · simp only [insertDesc, h, if_true]
      exact (ih.cons y).trans (List.Perm.swap x y ys)
    · have he : insertDesc x (y :: ys) = x :: y :: ys := by
        simp [insertDesc, h]
      rw [he]

theorem sortAligns_perm (l : List FSEntry) : List.Perm (sortAligns l) l := by
  induction l with
  | nil => rfl
  | cons a l ih => exact (insertDesc_perm a (sortAligns l)).trans (ih.cons a)

theorem insertDesc_pairwise (x : FSEntry) (l : List FSEntry)
    (h : l.Pairwise (fun a b => ¬ a.name < b.name)) :
    (insertDesc x l).Pairwise (fun a b => ¬ a.name < b.name) := by
  induction l with
  | nil => simp [insertDesc]
  | cons y ys ih =>
    rcases List.pairwise_cons.mp h with ⟨hy, hys⟩
    by_cases hlt : strLtB x.name y.name
    · have hxy : x.name < y.name := (strLtB_iff _ _).mp hlt
      simp only [insertDesc, hlt, if_true]
      refine List.pairwise_cons.mpr ⟨?_, ih hys⟩
      intro z hz
      have hz' : z = x ∨ z ∈ ys := by
        have := (insertDesc_perm x ys).mem_iff.mp hz
        simpa using this
      rcases hz' with rfl | hz'
      · exact lt_asymm hxy
      · exact hy z hz'
    · have hxy : ¬ x.name < y.name := (strLtB_eq_false_iff _ _).mp (Bool.not_eq_true _ ▸ (by simpa using hlt))
      simp only [insertDesc, hlt, if_false]
      refine List.pairwise_cons.mpr ⟨?_, h⟩
      intro z hz
      rcases List.mem_cons.mp hz with rfl | hz'
      · exact hxy
      · intro hxz
        exact hy z hz' (lt_of_le_of_lt (not_lt.mp hxy) hxz)

theorem sortAligns_pairwise (l : List FSEntry) :
    (sortAligns l).Pairwise (fun a b => ¬ a.name < b.name) := by
  induction l with
  | nil => simp [sortAligns]
  | cons a l ih => exact insertDesc_pairwise a (sortAligns l) ih

theorem sortAligns_head_max {l : List FSEntry} {a : FSEntry} {rest : List FSEntry}
    (h : sortAligns l = a :: rest) :
    ∀ x ∈ l, ¬ (a.name < x.name) := by
  intro x hx
  have hx' : x ∈ a :: rest := h ▸ (sortAligns_perm l).symm.subset hx
  rcases List.mem_cons.mp hx' with rfl | hx'
  · exact lt_irrefl _
  · have hp := sortAligns_pairwise l
    rw [h] at hp
    exact (List.pairwise_cons.mp hp).1 x hx'

/-- Claim C1: when the candidate folder holds more than one entry whose
name starts with "Alignment", any path `get_input_folder` returns goes
through the alignment folder whose name is lexicographically greatest
(descending string sort, first element), followed by that folder's first
entry and "Fastq". -/
theorem get_input_folder_selects_max_alignment
    (run_folder : FSEntry) (run_id : String) (dn : String) (cs : List FSEntry)
    (hsub : (subEntry run_folder run_id).2 = .dir dn cs)
    (hmany : 1 < (cs.filter (fun s => strStarts s.name "Alignment")).length)
    (r : List String)
    (hok : get_input_folder run_folder run_id = .ok r) :
    ∃ a ∈ cs.filter (fun s => strStarts s.name "Alignment"),
      (∀ x ∈ cs.filter (fun s => strStarts s.name "Alignment"), ¬ (a.name < x.name)) ∧
      ∃ c, r = (subEntry run_folder run_id).1 ++ [a.name, c, "Fastq"] := by
  have h0 : (cs.filter (fun s => strStarts s.name "Alignment")).length > 0 := by omega
  rw [get_input_folder, hsub] at hok
  simp only [resolveFrom, if_pos h0, alignBranch] at hok
  rcases heq : sortAligns (cs.filter (fun s => strStarts s.name "Alignment")) with _ | ⟨a0, rest⟩
  · rw [heq] at hok
    simp at hok
  · rw [heq] at hok
    rcases a0 with n | ⟨an, acs⟩
    · simp at hok
    · rcases acs with _ | ⟨ss, acs'⟩
      · simp at hok
      · simp only [] at hok
        have hmem : FSEntry.dir an (ss :: acs') ∈ cs.filter (fun s => strStarts s.name "Alignment") := by
          have : FSEntry.dir an (ss :: acs') ∈ sortAligns (cs.filter (fun s => strStarts s.name "Alignment")) := by
            rw [heq]; exact List.mem_cons_self _ _
          exact (sortAligns_perm _).subset this
        refine ⟨FSEntry.dir an (ss :: acs'), hmem, sortAligns_head_max heq, ss.name, ?_⟩
        cases hok
        rfl

theorem chListStarts_iff (l p : List Char) :
    chListStarts l p = true ↔ ∃ t, l = p ++ t := by
  induction p generalizing l with
  | nil => simp [chListStarts]
  | cons b bs ih =>
    cases l with
    | nil => simp [chListStarts]
    | cons a as =>
      simp only [chListStarts, Bool.and_eq_true, beq_iff_eq, ih]
      constructor
      · rintro ⟨rfl, t, rfl⟩
        exact ⟨t, rfl⟩
      · rintro ⟨t, ht⟩
        injection ht with h1 h2
        exact ⟨h1, t, h2⟩

theorem chListHasSub_iff (needle hay : List Char) :
    chListHasSub needle hay = true ↔ ∃ p t, hay = p ++ needle ++ t := by
  induction hay with
  | nil =>
    simp only [chListHasSub, List.isEmpty_iff]
    constructor
    · rintro rfl
      exact ⟨[], [], rfl⟩
    · rintro ⟨p, t, ht⟩
      rcases List.append_eq_nil.mp (List.append_eq_nil.mp ht.symm).1 with ⟨_, h2⟩
      exact h2
  | cons a as ih =>
    simp only [chListHasSub, Bool.or_eq_true, chListStarts_iff, ih]
    constructor
    · rintro (⟨t, ht⟩ | ⟨p, t, ht⟩)
      · exact ⟨[], t, by simpa using ht⟩
      · exact ⟨a :: p, t, by simp [ht]⟩
    · rintro ⟨p, t, ht⟩
      cases p with
      | nil => exact Or.inl ⟨t, by simpa using ht⟩
      | cons x xs =>
        injection ht with h1 h2
        exact Or.inr ⟨xs, t, h2⟩

theorem strHasSub_iff (hay needle : String) :
    strHasSub hay needle = true ↔ ∃ p t, hay.data = p ++ needle.data ++ t :=
  chListHasSub_iff needle.data hay.data

theorem noFastqMsg_names_folder (n : String) :
    strHasSub (noFastqMsg n) n = true := by
  rw [strHasSub_iff]
  refine ⟨("No folder containing fastq files found in " : String).data, [], ?_⟩
  have : (noFastqMsg n).data = ("No folder containing fastq files found in " : String).data ++ n.data := by
    simp [noFastqMsg, String.data_append]
  simp [this]

/-- Claim C2: with no "Alignment"-named entry in the candidate folder,
`get_input_folder` returns run_folder/"Unaligned" whenever that path
exists (in particular when both legacy paths exist), and returns
run_folder/"Data"/"Intensities"/"BaseCalls" only when "Unaligned" does
not exist but that path does. -/
theorem get_input_folder_legacy_unaligned_first
    (run_folder : FSEntry) (run_id : String) (dn : String) (cs : List FSEntry)
    (hsub : (subEntry run_folder run_id).2 = .dir dn cs)
    (hnone : cs.filter (fun s => strStarts s.name "Alignment") = []) :
    (fsExists run_folder ["Unaligned"] = true →
       get_input_folder run_folder run_id = .ok ["Unaligned"]) ∧
    (fsExists run_folder ["Unaligned"] = false →
       fsExists run_folder ["Data", "Intensities", "BaseCalls"] = true →
       get_input_folder run_folder run_id = .ok ["Data", "Intensities", "BaseCalls"]) := by
  rw [get_input_folder, hsub]
  simp only [resolveFrom, hnone, List.length_nil, gt_iff_lt, lt_irrefl, if_false]
  constructor
  · intro hu
    simp [legacyBranch, hu]
  · intro hu hb
    simp [legacyBranch, hu, hb]

/-- Claim C3: with no "Alignment"-named entries, no "Unaligned" and no
"Data/Intensities/BaseCalls" path, `get_input_folder` raises a
ValueError whose message names the run folder, rather than returning a
null result. -/
theorem get_input_folder_no_layout_raises
    (run_folder : FSEntry) (run_id : String) (dn : String) (cs : List FSEntry)
    (hsub : (subEntry run_folder run_id).2 = .dir dn cs)
    (hnone : cs.filter (fun s => strStarts s.name "Alignment") = [])
    (hu : fsExists run_folder ["Unaligned"] = false)
    (hb : fsExists run_folder ["Data", "Intensities", "BaseCalls"] = false) :
    get_input_folder run_folder run_id =
      .error (.valueError (noFastqMsg run_folder.name)) ∧
    strHasSub (noFastqMsg run_folder.name) run_folder.name = true := by
  constructor
  · rw [get_input_folder, hsub]
    simp only [resolveFrom, hnone, List.length_nil, gt_iff_lt, lt_irrefl, if_false]
    simp [legacyBranch, hu, hb]
  · exact noFastqMsg_names_folder _

/-- Claim C9: when the chosen (lexicographically greatest) alignment
folder has no entries, `get_input_folder` raises the same "No folder
containing fastq files found" ValueError instead of returning a null
result, despite its docstring. -/
theorem get_input_folder_empty_alignment_raises
    (run_folder : FSEntry) (run_id : String) (dn : String) (cs : List FSEntry)
    (hsub : (subEntry run_folder run_id).2 = .dir dn cs)
    (an : String) (rest : List FSEntry)
    (hsort : sortAligns (cs.filter (fun s => strStarts s.name "Alignment")) =
      FSEntry.dir an [] :: rest) :
    get_input_folder run_folder run_id =
      .error (.valueError (noFastqMsg run_folder.name)) := by
  have h0 : (cs.filter (fun s => strStarts s.name "Alignment")).length > 0 := by
    have := (sortAligns_perm (cs.filter (fun s => strStarts s.name "Alignment"))).length_eq
    rw [hsort] at this
    simp at this
    omega
  rw [get_input_folder, hsub]
  simp only [resolveFrom, if_pos h0, alignBranch]
  rw [hsort]

/-- Claim C4, counterexample: the claim says the nested candidate is
entered exactly when run_folder/run_id exists **as a directory**. On a
run folder whose `run_id` entry is a regular file, the resolver the
claim describes (`get_input_folder_specNesting`) would scan the run
folder itself and succeed, but the code probes with bare `.exists()`,
enters the file and fails with NotADirectoryError. -/
theorem get_input_folder_nesting_probe_cex :
    get_input_folder_specNesting
        (.dir "R" [.file "run1", .dir "Alignment1" [.dir "L1" []], .dir "Unaligned" []])
        "run1" = .ok ["Alignment1", "L1", "Fastq"] ∧
    get_input_folder
        (.dir "R" [.file "run1", .dir "Alignment1" [.dir "L1" []], .dir "Unaligned" []])
        "run1" = .error (.notADirectoryError ["run1"]) :=
  ⟨rfl, rfl⟩

/-- Claim C4, amended: `get_input_folder` searches for alignment
folders under run_folder/run_id exactly when that path exists by
`Path.exists` — whether or not it is a directory; when it is a regular
file the listing fails with NotADirectoryError — and under run_folder
itself otherwise; the legacy fallback paths are always probed relative
to run_folder, not relative to the nested candidate. -/
theorem get_input_folder_nesting_probe_amended :
    (∀ (rf : FSEntry) (rid n : String), rf.childNamed rid = some (.file n) →
       get_input_folder rf rid = .error (.notADirectoryError [rid])) ∧
    (∀ (rf : FSEntry) (rid dn : String) (ds : List FSEntry),
       rf.childNamed rid = some (.dir dn ds) →
       ds.filter (fun s => strStarts s.name "Alignment") = [] →
       get_input_folder rf rid =
         (if fsExists rf ["Unaligned"] then .ok ["Unaligned"]
          else if fsExists rf ["Data", "Intensities", "BaseCalls"] then
            .ok ["Data", "Intensities", "BaseCalls"]
          else .error (.valueError (noFastqMsg rf.name)))) ∧
    (∀ (rf : FSEntry) (rid dn : String) (ds : List FSEntry) (an : String)
       (s1 : FSEntry) (acs rest : List FSEntry),
       rf.childNamed rid = some (.dir dn ds) →
       sortAligns (ds.filter (fun s => strStarts s.name "Alignment")) =
         FSEntry.dir an (s1 :: acs) :: rest →
       get_input_folder rf rid = .ok [rid, an, s1.name, "Fastq"]) ∧
    (∀ (rid rn an : String) (rcs : List FSEntry) (s1 : FSEntry) (acs rest : List FSEntry),
       (FSEntry.dir rn rcs).childNamed rid = none →
       sortAligns (rcs.filter (fun s => strStarts s.name "Alignment")) =
         FSEntry.dir an (s1 :: acs) :: rest →
       get_input_folder (.dir rn rcs) rid = .ok [an, s1.name, "Fastq"]) := by
  refine ⟨?_, ?_, ?_, ?_⟩
  · intro rf rid n h
    rw [get_input_folder, subEntry, h]
    rfl
  · intro rf rid dn ds h hnone
    rw [get_input_folder, subEntry, h]
    simp only [resolveFrom, hnone, List.length_nil, gt_iff_lt, lt_irrefl, if_false]
    rfl
  · intro rf rid dn ds an s1 acs rest h hsort
    have h0 : (ds.filter (fun s => strStarts s.name "Alignment")).length > 0 := by
      have := (sortAligns_perm (ds.filter (fun s => strStarts s.name "Alignment"))).length_eq
      rw [hsort] at this
      simp at this
      omega
    rw [get_input_folder, subEntry, h]
    simp only [resolveFrom, if_pos h0, alignBranch]
    rw [hsort]
    rfl
  · intro rid rn an rcs s1 acs rest h hsort
    have h0 : (rcs.filter (fun s => strStarts s.name "Alignment")).length > 0 := by
      have := (sortAligns_perm (rcs.filter (fun s => strStarts s.name "Alignment"))).length_eq
      rw [hsort] at this
      simp at this
      omega
    rw [get_input_folder, subEntry, h]
    simp only [resolveFrom, if_pos h0, alignBranch]
    rw [hsort]
    rfl

theorem get_input_folder_nesting_probe_amended_witness :
    (FSEntry.dir "R" [FSEntry.file "run1"]).childNamed "run1" = some (.file "run1") ∧
    get_input_folder (.dir "R" [.file "run1"]) "run1" =
      .error (.notADirectoryError ["run1"]) :=
  ⟨rfl, get_input_folder_nesting_probe_amended.1 (.dir "R" [.file "run1"]) "run1" "run1" rfl⟩

/-- Claim C6: `check_for_fastq` answers true iff at least one entry of
the directory has a name containing the marker substring ".fastq", and
false iff every entry lacks it. -/
theorem check_for_fastq_iff_marker (dn : String) (cs : List FSEntry) :
    (check_for_fastq (.dir dn cs) = .ok true ↔
      ∃ c ∈ cs, ∃ p t, c.name.data = p ++ (".fastq" : String).data ++ t) ∧
    (check_for_fastq (.dir dn cs) = .ok false ↔
      ∀ c ∈ cs, ¬ ∃ p t, c.name.data = p ++ (".fastq" : String).data ++ t) := by
  constructor
  · simp only [check_for_fastq, Except.ok.injEq]
    rw [List.any_eq_true]
    simp only [strHasSub_iff]
  · simp only [check_for_fastq, Except.ok.injEq]
    rw [show (cs.any (fun c => strHasSub c.name ".fastq") = false) ↔
        ∀ c ∈ cs, strHasSub c.name ".fastq" = false from by simp [List.any_eq_false]]
    constructor
    · intro h c hc
      rw [← strHasSub_iff]
      simp [h c hc]
    · intro h c hc
      have := h c hc
      rw [← strHasSub_iff] at this
      simp [this]

/-- Claim C8: `_get_old_files` selects exactly the public files whose
age in whole days is at least MAXDAYS = 14, and `cleanup` leaves in the
public directory exactly the files younger than that. -/
theorem cleanup_retention_window (current : Int) (files : List (String × Int)) :
    (∀ f, f ∈ get_old_files current files ↔
       (f ∈ files ∧ MAXDAYS ≤ deltaDays current f.2)) ∧
    (∀ f, f ∈ cleanup current files ↔
       (f ∈ files ∧ deltaDays current f.2 < MAXDAYS)) := by
  constructor
  · intro f
    simp [get_old_files, List.mem_filter]
  · intro f
    simp only [cleanup, List.mem_filter, Bool.not_eq_true']
    constructor
    · rintro ⟨hf, hc⟩
      refine ⟨hf, ?_⟩
      by_contra hge
      have hmem : f ∈ get_old_files current files := by
        simp only [get_old_files, List.mem_filter, decide_eq_true_eq]
        exact ⟨hf, by omega⟩
      simp [List.contains, List.elem_eq_mem, hmem] at hc
    · rintro ⟨hf, hlt⟩
      refine ⟨hf, ?_⟩
      have hnm : f ∉ get_old_files current files := by
        simp only [get_old_files, List.mem_filter, decide_eq_true_eq]
        rintro ⟨-, hge⟩
        omega
      simp [List.contains, List.elem_eq_mem, hnm]

/-- Claim C10: dispatching an empty run-id list returns the sentinel
`(-1, b"None")` with no effects, while still appending the default
recipients to the caller's list when `to_default_recipients` is set. -/
theorem dispatch_empty_sentinel (mapping : List (String × RunFolder)) (ag : String)
    (recipients : List String) (pub : List String) :
    dispatch mapping [] ag recipients true pub =
      (recipients ++ default_recipients, [], .ok .sentinel) := rfl

theorem dictLookup_dictInsert {α : Type} (m : List (String × α)) (k : String) (v : α) :
    dictLookup (dictInsert m k v) k = some v := by
  induction m with
  | nil => simp [dictInsert, dictLookup]
  | cons p rest ih =>
    cases hpk : p.1 == k with
    | true => simp [dictInsert, hpk, dictLookup]
    | false =>
      simp only [dictInsert, hpk, Bool.false_eq_true, if_false]
      simp only [dictLookup, List.find?_cons, hpk]
      exact ih

theorem dictInsert_fresh {α : Type} (m : List (String × α)) (k : String) (v : α)
    (h : ∀ p ∈ m, p.1 ≠ k) :
    dictInsert m k v = m ++ [(k, v)] := by
  induction m with
  | nil => rfl
  | cons p rest ih =>
    have hp : (p.1 == k) = false := by
      simpa using h p (List.mem_cons_self p rest)
    simp only [dictInsert, hp, Bool.false_eq_true, if_false, List.cons_append]
    rw [ih (fun q hq => h q (List.mem_cons_of_mem p hq))]

theorem insertSeq_append (ps qs : List (String × FSEntry)) :
    ∀ acc, insertSeq acc (ps ++ qs) = insertSeq (insertSeq acc ps) qs := by
  induction ps with
  | nil => intro acc; rfl
  | cons p rest ih => intro acc; exact ih (dictInsert acc p.1 p.2)

theorem insertSeq_length (ps : List (String × FSEntry)) :
    ∀ acc : List (String × FSEntry),
      (ps.map (fun p => p.1)).Nodup →
      (∀ p ∈ ps, ∀ q ∈ acc, q.1 ≠ p.1) →
      (insertSeq acc ps).length = acc.length + ps.length := by
  induction ps with
  | nil => intro acc _ _; simp [insertSeq]
  | cons p rest ih =>
    intro acc hnd hfresh
    have hp : dictInsert acc p.1 p.2 = acc ++ [(p.1, p.2)] :=
      dictInsert_fresh acc p.1 p.2
        (fun q hq => hfresh p (List.mem_cons_self p rest) q hq)
    have hstep : insertSeq acc (p :: rest) = insertSeq (acc ++ [(p.1, p.2)]) rest := by
      rw [insertSeq, hp]
    rw [hstep]
    rw [List.map_cons] at hnd
    rcases List.nodup_cons.mp hnd with ⟨hp1, hnd'⟩
    have hfresh' : ∀ r ∈ rest, ∀ q ∈ acc ++ [(p.1, p.2)], q.1 ≠ r.1 := by
      intro r hr q hq
      rcases List.mem_append.mp hq with hq | hq
      · exact hfresh r (List.mem_cons_of_mem p hr) q hq
      · have : q = (p.1, p.2) := by simpa using hq
        subst this
        intro hcontra
        exact hp1 (hcontra ▸ List.mem_map_of_mem (fun p => p.1) hr)
    rw [ih (acc ++ [(p.1, p.2)]) hnd' hfresh']
    simp only [List.length_append, List.length_cons, List.length_nil]
    omega

theorem collectSub_eq (subs : List FSEntry) :
    ∀ acc, collectSub acc subs =
      insertSeq acc
        ((subs.filter (fun s => firstIsDigit s.name && decide (4 < s.name.length))).map
          (fun s => (s.name, s))) := by
  induction subs with
  | nil => intro acc; rfl
  | cons s rest ih =>
    intro acc
    cases h : (firstIsDigit s.name && decide (4 < s.name.length)) with
    | true =>
      rw [collectSub, if_pos h, List.filter_cons, if_pos h, List.map_cons, insertSeq, ih]
    | false =>
      rw [collectSub, if_neg (by simp [h]), List.filter_cons, if_neg (by simp [h]), ih]

theorem collectItems_eq (cs : List FSEntry)
    (hshape : ∀ c ∈ cs, firstIsDigit c.name = true → c.name.length = 4 →
       ∃ dn subs, c = FSEntry.dir dn subs) :
    ∀ acc, collectItems acc cs = .ok (insertSeq acc (collectedPairs cs)) := by
  induction cs with
  | nil => intro acc; rfl
  | cons c rest ih =>
    have hshape' : ∀ x ∈ rest, firstIsDigit x.name = true → x.name.length = 4 →
        ∃ dn subs, x = FSEntry.dir dn subs :=
      fun x hx => hshape x (List.mem_cons_of_mem c hx)
    intro acc
    cases hd : firstIsDigit c.name with
    | false =>
      have h2 : itemPairs c = [] := by
        simp [itemPairs, hd]
      rw [collectItems.eq_def]
      dsimp only
      rw [if_neg (by simp [hd]), ih hshape', collectedPairs, h2, List.nil_append]
    | true =>
      cases h4 : decide (4 < c.name.length) with
      | true =>
        have h2 : itemPairs c = [(c.name, c)] := by
          simp only [itemPairs, hd, h4, if_true]
        rw [collectItems.eq_def]
        dsimp only
        rw [if_pos hd, if_pos h4, ih hshape', collectedPairs, h2,
          List.singleton_append, insertSeq]
      | false =>
        cases h44 : c.name.length == 4 with
        | true =>
          rcases hshape c (List.mem_cons_self c rest) hd (by simpa using h44) with
            ⟨dn, subs, rfl⟩
          have h2 : itemPairs (FSEntry.dir dn subs) =
              (subs.filter (fun s => firstIsDigit s.name && decide (4 < s.name.length))).map
                (fun s => (s.name, s)) := by
            simp only [itemPairs, hd, h4, h44, Bool.false_eq_true, if_false, if_true]
          rw [collectItems.eq_def]
          dsimp only
          rw [if_pos hd, if_neg (by simp [h4]), if_pos h44, ih hshape',
            collectedPairs, h2, insertSeq_append, collectSub_eq]
        | false =>
          have h2 : itemPairs c = [] := by
            simp [itemPairs, hd, h4, h44]
          rw [collectItems.eq_def]
          dsimp only
          rw [if_pos hd, if_neg (by simp [h4]), if_neg (by simp [h44]),
            ih hshape', collectedPairs, h2, List.nil_append]

theorem collectedPairs_length (cs : List FSEntry)
    (hM : ∀ c ∈ cs, firstIsDigit c.name = true → c.name.length = 4 →
       ∃ dn subs, c = FSEntry.dir dn subs ∧
         (subs.filter (fun s => firstIsDigit s.name && decide (4 < s.name.length))).length
           = 1) :
    (collectedPairs cs).length =
      (cs.filter (fun c => firstIsDigit c.name && decide (4 < c.name.length))).length
      + (cs.filter (fun c => firstIsDigit c.name && (c.name.length == 4))).length := by
  induction cs with
  | nil => rfl
  | cons c rest ih =>
    have hM' : ∀ x ∈ rest, firstIsDigit x.name = true → x.name.length = 4 →
        ∃ dn subs, x = FSEntry.dir dn subs ∧
          (subs.filter (fun s => firstIsDigit s.name && decide (4 < s.name.length))).length
            = 1 :=
      fun x hx => hM x (List.mem_cons_of_mem c hx)
    rw [collectedPairs, List.length_append, ih hM']
    rw [List.filter_cons, List.filter_cons]
    cases hd : firstIsDigit c.name with
    | false =>
      have h2 : itemPairs c = [] := by simp [itemPairs, hd]
      simp only [h2, List.length_nil, hd, Bool.false_and, Bool.false_eq_true, if_false]
      omega
    | true =>
      cases h4 : decide (4 < c.name.length) with
      | true =>
        have h2 : itemPairs c = [(c.name, c)] := by simp only [itemPairs, hd, h4, if_true]
        have h44 : (c.name.length == 4) = false := by
          have h5 : 4 < c.name.length := of_decide_eq_true h4
          rw [beq_eq_false_iff_ne]
          omega
        simp only [h2, List.length_cons, List.length_nil, hd, h4, h44, Bool.true_and,
          Bool.false_eq_true, if_true, if_false, List.length_cons]
        omega
      | false =>
        cases h44 : c.name.length == 4 with
        | true =>
          rcases hM c (List.mem_cons_self c rest) hd (by simpa using h44) with
            ⟨dn, subs, rfl, hone⟩
          have h2 : (itemPairs (FSEntry.dir dn subs)).length = 1 := by
            simp only [itemPairs, hd, h4, h44, Bool.false_eq_true, if_false, if_true]
            simpa using hone
          simp only [h2, hd, h4, h44, Bool.true_and, Bool.false_eq_true, if_false, if_true,
            List.length_cons]
          omega
        | false =>
          have h2 : itemPairs c = [] := by simp [itemPairs, hd, h4, h44]
          simp only [h2, List.length_nil, hd, h4, h44, Bool.true_and, Bool.false_eq_true,
            if_false]
          omega

theorem collect_ids_singleton (root : FSEntry) :
    collect_ids [root] = collectRoot [] root := by
  cases h : collectRoot [] root <;> simp [collect_ids, List.foldlM, h]

/-- Claim C5: scanning a root whose digit-led entries of length > 4
number N and whose digit-led entries of length exactly 4 (each holding
exactly one digit-led nested entry of length > 4) number M collects
exactly N + M run ids (when the collected ids are distinct), and an
insert into the run-id mapping overwrites the entry for an existing key
(last seen wins). -/
theorem collect_ids_counts (rn : String) (cs : List FSEntry)
    (hM : ∀ c ∈ cs, firstIsDigit c.name = true → c.name.length = 4 →
       ∃ dn subs, c = FSEntry.dir dn subs ∧
         (subs.filter (fun s => firstIsDigit s.name && decide (4 < s.name.length))).length
           = 1)
    (hnodup : (collectedNames cs).Nodup) :
    ∃ d, collect_ids [FSEntry.dir rn cs] = .ok d ∧
      d.length =
        (cs.filter (fun c => firstIsDigit c.name && decide (4 < c.name.length))).length
        + (cs.filter (fun c => firstIsDigit c.name && (c.name.length == 4))).length ∧
      (∀ (m : List (String × FSEntry)) (k : String) (v : FSEntry),
        dictLookup (dictInsert m k v) k = some v) := by
  have hshape : ∀ c ∈ cs, firstIsDigit c.name = true → c.name.length = 4 →
      ∃ dn subs, c = FSEntry.dir dn subs := by
    intro c hc h1 h2
    rcases hM c hc h1 h2 with ⟨dn, subs, rfl, -⟩
    exact ⟨dn, subs, rfl⟩
  refine ⟨insertSeq [] (collectedPairs cs), ?_, ?_, ?_⟩
  · rw [collect_ids_singleton]
    exact collectItems_eq cs hshape []
  · rw [insertSeq_length (collectedPairs cs) []
      (by simpa [collectedNames] using hnodup) (by intro p _ q hq; cases hq)]
    rw [collectedPairs_length cs hM]
    simp
  · intro m k v
    exact dictLookup_dictInsert m k v

theorem collect_ids_counts_witness :
    ∃ d, collect_ids [FSEntry.dir "incoming"
        [FSEntry.dir "210525_A" [], FSEntry.dir "1234" [FSEntry.dir "210526_B" []],
         FSEntry.file "README"]] = .ok d ∧
      d.length =
        (([FSEntry.dir "210525_A" [], FSEntry.dir "1234" [FSEntry.dir "210526_B" []],
           FSEntry.file "README"].filter
            (fun c => firstIsDigit c.name && decide (4 < c.name.length))).length
        + ([FSEntry.dir "210525_A" [], FSEntry.dir "1234" [FSEntry.dir "210526_B" []],
            FSEntry.file "README"].filter
            (fun c => firstIsDigit c.name && (c.name.length == 4))).length) ∧
      (∀ (m : List (String × FSEntry)) (k : String) (v : FSEntry),
        dictLookup (dictInsert m k v) k = some v) :=
  collect_ids_counts "incoming"
    [FSEntry.dir "210525_A" [], FSEntry.dir "1234" [FSEntry.dir "210526_B" []],
     FSEntry.file "README"]
    (by
      intro c hc h1 h2
      rcases List.mem_cons.mp hc with rfl | hc
      · exact absurd h2 (by decide)
      rcases List.mem_cons.mp hc with rfl | hc
      · exact ⟨"1234", [FSEntry.dir "210526_B" []], rfl, by decide⟩
      rcases List.mem_cons.mp hc with rfl | hc
      · exact absurd h1 (by decide)
      · cases hc)
    (by decide)

theorem dispatchOne_bad (mapping : List (String × RunFolder)) (ag : String)
    (pub : List String) (run_id : String)
    (hbad : dictLookup mapping run_id = none ∨
      ∃ rf, dictLookup mapping run_id = some rf ∧ rf.entry = none) :
    ∃ msg, dispatchOne mapping ag pub run_id = .error (.valueError msg) := by
  rcases hbad with hnone | ⟨rf, hrf, hent⟩
  · exact ⟨"Run " ++ run_id ++ " does not exist.", by rw [dispatchOne, hnone]⟩
  · refine ⟨"Folder " ++ rf.pathStr ++ " does not exist.", ?_⟩
    rw [dispatchOne, hrf]
    dsimp only
    rw [hent]

theorem dispatchOne_effects (mapping : List (String × RunFolder)) (ag : String)
    (pub : List String) (r : String) (effs : List Effect) (pub2 : List String)
    (h : dispatchOne mapping ag pub r = .ok (effs, pub2)) :
    ∀ e ∈ effs, e = Effect.createArchive r ∨ e = Effect.sendEmail r := by
  unfold dispatchOne at h
  repeat' split at h
  all_goals try (dsimp only at h)
  all_goals try (split at h)
  all_goals try (cases h)
  all_goals
    intro e he
    rcases List.mem_cons.mp he with rfl | he2
    · simp
    · simp_all

theorem dispatchGo_bad (mapping : List (String × RunFolder)) (ag : String) (bad : String)
    (hbad : dictLookup mapping bad = none ∨
      ∃ rf, dictLookup mapping bad = some rf ∧ rf.entry = none) :
    ∀ (ids pub : List String) (trace : List Effect) (res : SMTPRes),
      bad ∈ ids →
      Effect.createArchive bad ∉ trace →
      Effect.sendEmail bad ∉ trace →
      (∃ e, (dispatchGo mapping ag ids pub trace res).2 = .error e) ∧
      Effect.createArchive bad ∉ (dispatchGo mapping ag ids pub trace res).1 ∧
      Effect.sendEmail bad ∉ (dispatchGo mapping ag ids pub trace res).1 := by
  intro ids
  induction ids with
  | nil =>
    intro pub trace res hmem _ _
    cases hmem
  | cons r rest ih =>
    intro pub trace res hmem hc hs
    cases hone : dispatchOne mapping ag pub r with
    | error e =>
      rw [dispatchGo, hone]
      exact ⟨⟨e, rfl⟩, hc, hs⟩
    | ok ep =>
      have hrb : r ≠ bad := by
        intro hrb
        subst hrb
        rcases dispatchOne_bad mapping ag pub r hbad with ⟨msg, hmsg⟩
        rw [hone] at hmsg
        cases hmsg
      have hmem' : bad ∈ rest := by
        rcases List.mem_cons.mp hmem with rfl | h
        · exact absurd rfl hrb
        · exact h
      obtain ⟨effs, pub2⟩ := ep
      have heff := dispatchOne_effects mapping ag pub r effs pub2 hone
      rw [dispatchGo, hone]
      apply ih pub2 (trace ++ effs) (.quitRes r) hmem'
      · intro hmemc
        rcases List.mem_append.mp hmemc with h | h
        · exact hc h
        · rcases heff _ h with h1 | h1
          · injection h1 with h2
            exact hrb h2.symm
          · cases h1
      · intro hmems
        rcases List.mem_append.mp hmems with h | h
        · exact hs h
        · rcases heff _ h with h1 | h1
          · cases h1
          · injection h1 with h2
            exact hrb h2.symm

/-- Claim C7: dispatching a run id that is not in the collected
mapping, or whose mapped folder no longer exists, raises a ValueError
the moment that id is processed, the whole dispatch ends in an error,
and no archive is created and no email is sent for that id. -/
theorem dispatch_unknown_run_fails (mapping : List (String × RunFolder)) (ag : String)
    (recipients : List String) (toDefault : Bool) (pub : List String)
    (run_list : List String) (run_id : String)
    (hmem : run_id ∈ run_list)
    (hbad : dictLookup mapping run_id = none ∨
      ∃ rf, dictLookup mapping run_id = some rf ∧ rf.entry = none) :
    (∀ p : List String, ∃ msg,
       dispatchOne mapping ag p run_id = .error (.valueError msg)) ∧
    (∃ e, (dispatch mapping run_list ag recipients toDefault pub).2.2 = .error e) ∧
    Effect.createArchive run_id ∉ (dispatch mapping run_list ag recipients toDefault pub).2.1 ∧
    Effect.sendEmail run_id ∉ (dispatch mapping run_list ag recipients toDefault pub).2.1 := by
  rcases dispatchGo_bad mapping ag run_id hbad run_list pub [] .sentinel hmem
    (by simp) (by simp) with ⟨⟨e, he⟩, hc, hs⟩
  exact ⟨fun p => dispatchOne_bad mapping ag p run_id hbad, ⟨e, he⟩, hc, hs⟩

theorem dispatch_unknown_run_fails_witness :
    ("r1" : String) ∈ ["r1"] ∧
    (∀ p : List String, ∃ msg,
       dispatchOne ([] : List (String × RunFolder)) "AG" p "r1" =
         .error (.valueError msg)) ∧
    (∃ e, (dispatch ([] : List (String × RunFolder)) ["r1"] "AG" [] true []).2.2 =
       .error e) ∧
    Effect.createArchive "r1" ∉
      (dispatch ([] : List (String × RunFolder)) ["r1"] "AG" [] true []).2.1 ∧
    Effect.sendEmail "r1" ∉
      (dispatch ([] : List (String × RunFolder)) ["r1"] "AG" [] true []).2.1 :=
  ⟨by simp,
   dispatch_unknown_run_fails [] "AG" [] true [] ["r1"] "r1" (by simp) (Or.inl rfl)⟩

theorem get_input_folder_selects_max_alignment_witness :
    1 < (([FSEntry.dir "Alignment1" [FSEntry.dir "s1" []],
           FSEntry.dir "Alignment2" [FSEntry.dir "s2" []]] : List FSEntry).filter
          (fun s => strStarts s.name "Alignment")).length ∧
    get_input_folder
      (FSEntry.dir "R" [FSEntry.dir "Alignment1" [FSEntry.dir "s1" []],
        FSEntry.dir "Alignment2" [FSEntry.dir "s2" []]]) "X" =
      .ok ["Alignment2", "s2", "Fastq"] ∧
    ∃ a ∈ ([FSEntry.dir "Alignment1" [FSEntry.dir "s1" []],
            FSEntry.dir "Alignment2" [FSEntry.dir "s2" []]] : List FSEntry).filter
          (fun s => strStarts s.name "Alignment"),
      (∀ x ∈ ([FSEntry.dir "Alignment1" [FSEntry.dir "s1" []],
               FSEntry.dir "Alignment2" [FSEntry.dir "s2" []]] : List FSEntry).filter
          (fun s => strStarts s.name "Alignment"), ¬ (a.name < x.name)) ∧
      ∃ c, ["Alignment2", "s2", "Fastq"] =
        (subEntry (FSEntry.dir "R" [FSEntry.dir "Alignment1" [FSEntry.dir "s1" []],
          FSEntry.dir "Alignment2" [FSEntry.dir "s2" []]]) "X").1 ++ [a.name, c, "Fastq"] :=
  ⟨by decide, rfl,
   get_input_folder_selects_max_alignment
     (FSEntry.dir "R" [FSEntry.dir "Alignment1" [FSEntry.dir "s1" []],
       FSEntry.dir "Alignment2" [FSEntry.dir "s2" []]]) "X" "R"
     [FSEntry.dir "Alignment1" [FSEntry.dir "s1" []],
      FSEntry.dir "Alignment2" [FSEntry.dir "s2" []]]
     rfl (by decide) ["Alignment2", "s2", "Fastq"] rfl⟩

theorem get_input_folder_legacy_unaligned_first_witness :
    (([FSEntry.dir "Unaligned" []] : List FSEntry).filter
        (fun s => strStarts s.name "Alignment") = []) ∧
    fsExists (FSEntry.dir "R" [FSEntry.dir "Unaligned" []]) ["Unaligned"] = true ∧
    get_input_folder (FSEntry.dir "R" [FSEntry.dir "Unaligned" []]) "X" =
      .ok ["Unaligned"] :=
  ⟨rfl, rfl,
   (get_input_folder_legacy_unaligned_first (FSEntry.dir "R" [FSEntry.dir "Unaligned" []]) "X" "R"
     [FSEntry.dir "Unaligned" []] rfl rfl).1 rfl⟩

theorem get_input_folder_no_layout_raises_witness :
    (([FSEntry.file "data.bin"] : List FSEntry).filter
        (fun s => strStarts s.name "Alignment") = []) ∧
    fsExists (FSEntry.dir "R" [FSEntry.file "data.bin"]) ["Unaligned"] = false ∧
    fsExists (FSEntry.dir "R" [FSEntry.file "data.bin"])
      ["Data", "Intensities", "BaseCalls"] = false ∧
    get_input_folder (FSEntry.dir "R" [FSEntry.file "data.bin"]) "X" =
      .error (.valueError (noFastqMsg "R")) ∧
    strHasSub (noFastqMsg "R") "R" = true :=
  ⟨rfl, rfl, rfl,
   get_input_folder_no_layout_raises (FSEntry.dir "R" [FSEntry.file "data.bin"]) "X" "R"
     [FSEntry.file "data.bin"] rfl rfl rfl rfl⟩

theorem get_input_folder_empty_alignment_raises_witness :
    sortAligns (([FSEntry.dir "Alignment1" []] : List FSEntry).filter
        (fun s => strStarts s.name "Alignment")) = [FSEntry.dir "Alignment1" []] ∧
    get_input_folder (FSEntry.dir "R" [FSEntry.dir "Alignment1" []]) "X" =
      .error (.valueError (noFastqMsg "R")) :=
  ⟨rfl,
   get_input_folder_empty_alignment_raises (FSEntry.dir "R" [FSEntry.dir "Alignment1" []]) "X" "R"
     [FSEntry.dir "Alignment1" []] rfl "Alignment1" [] rfl⟩
